import Mathlib

/-!
Verification of `src/mini-builder.js`: a shallow embedding of the module
bundler (graph builder + bundle emitter + generated runtime loader) and
proofs about it.

Modelling conventions:
* Node's `path.dirname` / `path.join` (POSIX) are implemented directly.
* The Source Transformer collaborators (babylon parse, babel-traverse,
  babel-core transform) are abstracted: a source file is represented by
  its parsed AST top-level nodes (import declarations, `require(...)`
  call expressions, other code) plus the opaque transformed code string.
  `traverse` collecting `ImportDeclaration` node sources in source order
  is `extractDependencies`.
* `fs.readFileSync` failure (the only throw site of the build) is the
  `Except` error `sourceReadError`.  `moduleResolutionError` is the error
  class named by the specification; it is declared so that statements
  about it can be made, the source never produces it.
* The module-global `let identifier = 0` counter is threaded explicitly:
  every function takes the counter value before and returns it after, so
  successive builds in one process chain the counter.
* The unbounded `for (const module of moduleList)` loop (the list grows
  while iterated) is given explicit fuel: `.ok none` means the fuel ran
  out, i.e. the JS loop has not terminated within that many iterations.
-/

namespace MiniBuilder

/-- Split a string at `/` separators (structural version of
`String.splitOn "/"`, so that concrete paths evaluate by `decide`). -/
def splitSlashAux : List Char → List Char → List String
  | [], cur => [⟨cur.reverse⟩]
  | c :: cs, cur =>
      if c = '/' then ⟨cur.reverse⟩ :: splitSlashAux cs []
      else splitSlashAux cs (c :: cur)

/-- Split a path into its `/`-separated segments. -/
def splitSlash (s : String) : List String := splitSlashAux s.data []

/-- Join segments with `/` separators. -/
def joinSlash : List String → String
  | [] => ""
  | [s] => s
  | s :: rest => s ++ "/" ++ joinSlash rest

/-- One resolved step of POSIX path normalization (`..` handling):
pop the last segment, keep chains of leading `..` in relative paths,
drop `..` at the root of absolute paths. -/
def normStep (isAbs : Bool) (acc : List String) (seg : String) : List String :=
  if seg = ".." then
    match acc.getLast? with
    | some l => if l = ".." then acc ++ [seg] else acc.dropLast
    | none => if isAbs then acc else acc ++ [seg]
  else acc ++ [seg]

/-- Node `path.posix.join(a, b)`: concatenate with a separator and
normalize (drop empty and `.` segments, resolve `..`). -/
def pathJoin (a b : String) : String :=
  let combined := a ++ "/" ++ b
  let isAbs : Bool := match combined.data with | '/' :: _ => true | _ => false
  let segs := (splitSlash combined).filter (fun s => !(s == "") && !(s == "."))
  let norm := segs.foldl (normStep isAbs) []
  let body := joinSlash norm
  if isAbs then "/" ++ body else if body = "" then "." else body

/-- Node `path.posix.dirname`: everything before the last separator,
`.` when there is none, `/` for top-level absolute paths. -/
def pathDirname (p : String) : String :=
  match (splitSlash p).dropLast with
  | [] => "."
  | [""] => "/"
  | init => joinSlash init

example : pathDirname "./example/entry.js" = "./example" := by decide
example : pathJoin "./example" "./a.js" = "example/a.js" := by decide
example : pathJoin "example" "./b.js" = "example/b.js" := by decide
example : pathDirname "example/a.js" = "example" := by decide

/-- A top-level node of the parsed AST, as far as dependency collection
is concerned: `babel-traverse` visits `ImportDeclaration` nodes; a
CommonJS `require('...')` appears as a call expression, and everything
else is opaque. -/
inductive SrcNode where
  | importDecl (source : String)
  | requireCall (source : String)
  | other
deriving DecidableEq, Repr

/-- The source of a node when it is an ES `import` declaration. -/
def importSource : SrcNode → Option String
  | .importDecl s => some s
  | _ => none

/-- A source file after parsing and transformation: the AST nodes in
source order and the opaque `babel-core` output `code`. -/
structure SrcFile where
  ast : List SrcNode
  compiled : String
deriving DecidableEq, Repr

/-- The file system collaborator: `readFileSync` returns the file at a
path, or fails. -/
def FS : Type := String → Option SrcFile

/-- The pass `traverse(ast, { ImportDeclaration: ... })`: push the `source.value`
of each `ImportDeclaration`, in source order, onto `dependencies`. -/
def extractDependencies (ast : List SrcNode) : List String :=
  ast.foldl (fun acc n =>
    match n with
    | .importDecl s => acc ++ [s]
    | _ => acc) []

/-- Build-time failures.  `sourceReadError` is `fs.readFileSync`
throwing (the only failure the source can raise);
`moduleResolutionError` is the error class of the specification's
resolver taxonomy, declared here only so claims about it can be stated. -/
inductive BuildError where
  | sourceReadError (path : String)
  | moduleResolutionError (specifier : String)
deriving DecidableEq, Repr

/-- A module object as returned by `createModule`, with the
`dependenceMapping` field that `createDependenceTree` later assigns
(`[]` until then). -/
structure Module where
  id : Nat
  code : String
  dependencies : List String
  path : String
  dependenceMapping : List (String × Nat) := []
deriving DecidableEq, Repr

/-- Function `createModule(path)`: read the file, collect its import
declarations, take the next value of the global `identifier` counter,
keep the transformed code.  The counter is threaded explicitly:
`identifier` is its value before the call, the second component of the
result its value after. -/
def createModule (fs : FS) (path : String) (identifier : Nat) :
    Except BuildError (Module × Nat) :=
  match fs path with
  | none => .error (.sourceReadError path)
  | some file =>
      .ok ({ id := identifier
             code := file.compiled
             dependencies := extractDependencies file.ast
             path := path }, identifier + 1)

/-- JS object assignment `m[k] = v` on a string-keyed object kept as an
insertion-ordered association list: an existing key is updated in place,
a new key is appended. -/
def jsObjSet (m : List (String × Nat)) (k : String) (v : Nat) :
    List (String × Nat) :=
  if m.any (fun p => p.1 = k) then
    m.map (fun p => if p.1 = k then (k, v) else p)
  else m ++ [(k, v)]

/-- JS object lookup `m[k]`: the stored value, or `undefined` (`none`). -/
def jsObjGet (m : List (String × Nat)) (k : String) : Option Nat :=
  (m.find? (fun p => p.1 = k)).map (fun p => p.2)

/-- The `module.dependencies.forEach(dependencePath => ...)` body of
`createDependenceTree`: for each specifier in declared order, join it
with the module's directory, create a module for the joined path
unconditionally, record `specifier ↦ new id`, and collect the created
modules (they are pushed onto `moduleList`).  Returns the finished
mapping, the created modules in specifier order, and the counter. -/
def processDeps (fs : FS) (dirname : String) :
    List String → List (String × Nat) → Nat →
    Except BuildError (List (String × Nat) × List Module × Nat)
  | [], mapping, counter => .ok (mapping, [], counter)
  | dep :: rest, mapping, counter =>
      let absolutePath := pathJoin dirname dep
      match createModule fs absolutePath counter with
      | .error e => .error e
      | .ok (dependenceModule, counter') =>
          match processDeps fs dirname rest
              (jsObjSet mapping dep dependenceModule.id) counter' with
          | .error e => .error e
          | .ok (mapping', newMods, counter'') =>
              .ok (mapping', dependenceModule :: newMods, counter'')

/-- The `for (const module of moduleList)` loop: `done` are the already
iterated elements (their `dependenceMapping` assigned), `queue` the
elements not yet reached; pushes append to `queue`.  `fuel` bounds the
number of iterations; `.ok none` means the loop was still running when
the fuel ran out. -/
def buildLoop (fs : FS) :
    Nat → List Module → List Module → Nat →
    Except BuildError (Option (List Module × Nat))
  | _, done, [], counter => .ok (some (done, counter))
  | 0, _, _ :: _, _ => .ok none
  | fuel + 1, done, m :: rest, counter =>
      let dirname := pathDirname m.path
      match processDeps fs dirname m.dependencies [] counter with
      | .error e => .error e
      | .ok (mapping, newMods, counter') =>
          buildLoop fs fuel (done ++ [{ m with dependenceMapping := mapping }])
            (rest ++ newMods) counter'

/-- Function `createDependenceTree(entry)`: create the entry module, then run the
growing-list loop.  The result is the final `moduleList` together with
the counter value after the build. -/
def createDependenceTree (fs : FS) (entry : String) (identifier : Nat)
    (fuel : Nat) : Except BuildError (Option (List Module × Nat)) :=
  match createModule fs entry identifier with
  | .error e => .error e
  | .ok (entryModule, counter) => buildLoop fs fuel [] [entryModule] counter

/-- Join strings with `","`, as `JSON.stringify` separates object
entries. -/
def joinComma : List String → String
  | [] => ""
  | [s] => s
  | s :: rest => s ++ "," ++ joinComma rest

/-- Serialization `JSON.stringify` of the string→number `dependenceMapping` object
(entries in insertion order). -/
def jsonStringifyMapping (m : List (String × Nat)) : String :=
  "\x7b" ++ joinComma (m.map (fun p => "\"" ++ p.1 ++ "\":" ++ toString p.2)) ++ "\x7d"

/-- The per-module template-literal entry appended to `modules` inside
`bundle`'s `forEach`, whitespace exactly as in the source. -/
def moduleEntryString (dependence : Module) : String :=
  toString dependence.id ++
    ": [\n            function(require, module, exports) \x7b\n                " ++
    dependence.code ++
    "\n            \x7d,\n            " ++
    jsonStringifyMapping dependence.dependenceMapping ++
    "\n        ],"

/-- The accumulation `let modules = ''; dependenceTree.forEach(d => { modules += ... })`. -/
def bundleModulesText (dependenceTree : List Module) : String :=
  dependenceTree.foldl (fun modules d => modules ++ moduleEntryString d) ""

/-- The `result` template literal of `bundle` up to the `${modules}`
splice: the self-invoking loader with its generated `require`. -/
def bundlePrefix : String :=
  "\n    (function(modules) \x7b\n      function require(id) \x7b\n        const [fn, dependenceMapping] = modules[id];\n\n        function requireModule(name) \x7b\n          return require(dependenceMapping[name]);\n        \x7d\n\n        const module = \x7b exports : \x7b\x7d \x7d;\n\n        fn(requireModule, module, module.exports);\n\n        return module.exports;\n      \x7d\n\n      require(0);\n    \x7d)(\x7b"

/-- The `result` template literal of `bundle` after the `${modules}`
splice. -/
def bundleSuffix : String := "\x7d)\n  "

/-- Function `bundle(dependenceTree)`: the final artifact text. -/
def bundle (dependenceTree : List Module) : String :=
  bundlePrefix ++ bundleModulesText dependenceTree ++ bundleSuffix

/-- The top-level script: build the graph, then bundle it.  An error
during graph construction propagates and no artifact text exists;
`.ok none` again means the graph loop ran out of fuel. -/
def buildResult (fs : FS) (entry : String) (identifier fuel : Nat) :
    Except BuildError (Option String) :=
  match createDependenceTree fs entry identifier fuel with
  | .error e => .error e
  | .ok none => .ok none
  | .ok (some (graph, _)) => .ok (some (bundle graph))

/-! ## The generated runtime loader

The loader text in `bundlePrefix` is fixed generated code; its
semantics is embedded as an interpreter.  A factory (the compiled
CommonJS body of one module) is abstracted as a list of effects the
body performs in order: calling its module-local `require` with a
specifier string, or assigning a field of its `exports` object. -/

/-- A runtime failure of the loader: destructuring
`const [fn, dependenceMapping] = modules[id]` when `modules[id]` is
`undefined` throws a `TypeError`. -/
inductive RtErr where
  | typeError
deriving DecidableEq, Repr

/-- One effect of a module factory body: `require(name)` (result
discarded by the body) or `exports[key] = value`. -/
inductive Stmt where
  | sRequire (name : String)
  | sExport (key : String) (value : Int)
deriving DecidableEq, Repr

/-- The `modules` table the loader is applied to:
`id ↦ [factory, dependenceMapping]`. -/
abbrev RtTable := List (Nat × List Stmt × List (String × Nat))

/-- Observable interpreter state: the log of module ids whose factory
function was invoked, in invocation order. -/
structure RtState where
  log : List Nat
deriving DecidableEq, Repr

/-- JS field assignment `exports[k] = v`: update an existing key in
place, append a new one. -/
def jsExportsSet (ex : List (String × Int)) (k : String) (v : Int) :
    List (String × Int) :=
  if ex.any (fun p => p.1 = k) then
    ex.map (fun p => if p.1 = k then (k, v) else p)
  else ex ++ [(k, v)]

/-- A runtime value: `undefined`, or an exports object (a snapshot of
its fields). -/
inductive Val where
  | undef
  | obj (fields : List (String × Int))
deriving DecidableEq, Repr

/-- Lookup `modules[id]`: indexing with `undefined` or with an id absent from
the table yields `undefined` (`none`). -/
def findEntry (modules : RtTable) :
    Option Nat → Option (Nat × List Stmt × List (String × Nat))
  | none => none
  | some id => modules.find? (fun e => e.1 = id)

/-- Run a factory body given the loader's `require` function `req`:
each `require(name)` in the body goes through the generated
`requireModule` closure, i.e. becomes `req (dependenceMapping[name])`
(the result is discarded by the body); each export assignment updates
the fresh exports object. -/
def runBody (req : Option Nat → RtState → Except RtErr (Option (Val × RtState)))
    (dependenceMapping : List (String × Nat)) :
    List Stmt → List (String × Int) → RtState →
    Except RtErr (Option (List (String × Int) × RtState))
  | [], exports, st => .ok (some (exports, st))
  | .sRequire name :: rest, exports, st =>
      match req (jsObjGet dependenceMapping name) st with
      | .error e => .error e
      | .ok none => .ok none
      | .ok (some (_, st')) =>
          runBody req dependenceMapping rest exports st'
  | .sExport k v :: rest, exports, st =>
      runBody req dependenceMapping rest (jsExportsSet exports k v) st

/-- The generated `require(id)` (no exports cache): destructure
`modules[id]` — a `TypeError` if that is `undefined` — allocate a fresh
`module = { exports : {} }`, invoke the factory with the module-scoped
`requireModule`, and return `module.exports`.  `fuel` bounds the depth
of nested `require` calls; `.ok none` means it ran out, i.e. the JS
execution has not completed within that depth. -/
def requireRun (modules : RtTable) :
    Nat → Option Nat → RtState → Except RtErr (Option (Val × RtState))
  | 0, _, _ => .ok none
  | fuel + 1, id, st =>
      match findEntry modules id with
      | none => .error .typeError
      | some (mid, fn, dependenceMapping) =>
          match runBody (requireRun modules fuel) dependenceMapping fn []
              { log := st.log ++ [mid] } with
          | .error e => .error e
          | .ok none => .ok none
          | .ok (some (exports, st')) => .ok (some (.obj exports, st'))

/-- Evaluating the whole artifact: the immediately-invoked loader runs
`require(0);` as a statement and returns nothing, so the artifact
expression itself evaluates to `undefined` (errors and nontermination
propagate). -/
def runArtifact (modules : RtTable) (fuel : Nat) (st : RtState) :
    Except RtErr (Option (Val × RtState)) :=
  match requireRun modules fuel (some 0) st with
  | .error e => .error e
  | .ok none => .ok none
  | .ok (some (_, st')) => .ok (some (.undef, st'))

/-! ## Concrete file systems used as test inputs -/

/-- A source file whose top-level consists of ES import declarations
for the given specifiers, with opaque compiled code. -/
def fileOf (imports : List String) (compiled : String) : SrcFile :=
  { ast := imports.map SrcNode.importDecl, compiled := compiled }

/-- Diamond: the entry imports `./b.js` and `./c.js`, and both import
`./d.js`. -/
def diamondFS : FS := fun p =>
  if p = "./example/entry.js" then some (fileOf ["./b.js", "./c.js"] "E")
  else if p = "example/b.js" then some (fileOf ["./d.js"] "B")
  else if p = "example/c.js" then some (fileOf ["./d.js"] "C")
  else if p = "example/d.js" then some (fileOf [] "D")
  else none

/-- Cycle: the entry imports `./a.js`, `a.js` imports `./b.js`, and
`b.js` imports `./a.js` back. -/
def cycleFS : FS := fun p =>
  if p = "./example/entry.js" then some (fileOf ["./a.js"] "E")
  else if p = "example/a.js" then some (fileOf ["./b.js"] "A")
  else if p = "example/b.js" then some (fileOf ["./a.js"] "B")
  else none

/-- Fallback probe scenario: the entry imports `./x`; `example/x` does
not exist as a file but `example/x.js` does. -/
def fallbackFS : FS := fun p =>
  if p = "./example/entry.js" then some (fileOf ["./x"] "E")
  else if p = "example/x.js" then some (fileOf [] "X")
  else none

/-- Missing dependency: the entry imports `./missing.js`, which does
not exist. -/
def missingFS : FS := fun p =>
  if p = "./example/entry.js" then some (fileOf ["./missing.js"] "E")
  else none

/-- A single self-contained entry module with no imports. -/
def singleFS : FS := fun p =>
  if p = "./example/entry.js" then some (fileOf [] "E")
  else none

/-- Transitive missing dependency: the entry imports `./a.js`; `a.js`
imports `./b.js` (which exists) and then `./missing.js` (which does
not). -/
def transFS : FS := fun p =>
  if p = "./example/entry.js" then some (fileOf ["./a.js"] "E")
  else if p = "example/a.js" then some (fileOf ["./b.js", "./missing.js"] "A")
  else if p = "example/b.js" then some (fileOf [] "B")
  else none

/-! ## Concrete runtime module tables -/

/-- A table whose entry module requires the same specifier twice; the
specifier maps to module 1, whose factory sets one export field. -/
def doubleRequireTbl : RtTable :=
  [(0, [.sRequire "./a.js", .sRequire "./a.js"], [("./a.js", 1)]),
   (1, [.sExport "n" 1], [])]

/-- A table with a single entry module that sets `exports.x = 1`. -/
def singleTbl : RtTable := [(0, [.sExport "x" 1], [])]

/-- The three-record table of the cyclic scenario: module 0 (the entry)
requires `./a.js` (id 1), module 1 requires `./b.js` (id 2), and
module 2 requires `./a.js` (id 1) back. -/
def cycleRtTbl : RtTable :=
  [(0, [.sRequire "./a.js"], [("./a.js", 1)]),
   (1, [.sRequire "./b.js"], [("./b.js", 2)]),
   (2, [.sRequire "./a.js"], [("./a.js", 1)])]

end MiniBuilder

deriving instance DecidableEq for Except

namespace MiniBuilder

/-! ## Claim theorems -/

/-- C1: the claim says each distinct canonical path reachable from the
entry yields exactly one Module Record, and in a diamond both importers
map their specifier for D to the same id.  The code has no visited set:
in the diamond file system it creates two records for `example/d.js`,
and B's and C's `dependenceMapping` send `./d.js` to the different ids
3 and 4. -/
theorem c1_diamond_yields_two_records_for_d :
    ∃ mods : List Module,
      createDependenceTree diamondFS "./example/entry.js" 0 20 =
        .ok (some (mods, 5)) ∧
      (mods.filter (fun m => m.path = "example/d.js")).length = 2 ∧
      (∃ mb ∈ mods, mb.path = "example/b.js" ∧
        jsObjGet mb.dependenceMapping "./d.js" = some 3) ∧
      (∃ mc ∈ mods, mc.path = "example/c.js" ∧
        jsObjGet mc.dependenceMapping "./d.js" = some 4) := by
  refine ⟨[⟨0, "E", ["./b.js", "./c.js"], "./example/entry.js",
            [("./b.js", 1), ("./c.js", 2)]⟩,
          ⟨1, "B", ["./d.js"], "example/b.js", [("./d.js", 3)]⟩,
          ⟨2, "C", ["./d.js"], "example/c.js", [("./d.js", 4)]⟩,
          ⟨3, "D", [], "example/d.js", []⟩,
          ⟨4, "D", [], "example/d.js", []⟩], ?_, ?_, ?_, ?_⟩
  · decide
  · decide
  · exact ⟨⟨1, "B", ["./d.js"], "example/b.js", [("./d.js", 3)]⟩,
      by decide, by decide, by decide⟩
  · exact ⟨⟨2, "C", ["./d.js"], "example/c.js", [("./d.js", 4)]⟩,
      by decide, by decide, by decide⟩

/-- The shapes a module can have during the cyclic build: it is the
entry, `a.js`, or `b.js`, with the corresponding single dependency. -/
def cycleInv (m : Module) : Prop :=
  (m.path = "./example/entry.js" ∧ m.dependencies = ["./a.js"]) ∨
  (m.path = "example/a.js" ∧ m.dependencies = ["./b.js"]) ∨
  (m.path = "example/b.js" ∧ m.dependencies = ["./a.js"])

/-- Processing the entry's dependency list creates a fresh record for
`a.js`. -/
theorem processDeps_cycle_entry (c : Nat) :
    processDeps cycleFS "./example" ["./a.js"] [] c =
      .ok ([("./a.js", c)], [⟨c, "A", ["./b.js"], "example/a.js", []⟩], c + 1) := by
  have hj : pathJoin "./example" "./a.js" = "example/a.js" := by decide
  have hf : cycleFS "example/a.js" = some (fileOf ["./b.js"] "A") := by decide
  have hd : extractDependencies [SrcNode.importDecl "./b.js"] = ["./b.js"] := by decide
  simp [processDeps, createModule, hj, hf, hd, jsObjSet, fileOf]

/-- Processing `a.js`'s dependency list creates a fresh record for
`b.js`. -/
theorem processDeps_cycle_a (c : Nat) :
    processDeps cycleFS "example" ["./b.js"] [] c =
      .ok ([("./b.js", c)], [⟨c, "B", ["./a.js"], "example/b.js", []⟩], c + 1) := by
  have hj : pathJoin "example" "./b.js" = "example/b.js" := by decide
  have hf : cycleFS "example/b.js" = some (fileOf ["./a.js"] "B") := by decide
  have hd : extractDependencies [SrcNode.importDecl "./a.js"] = ["./a.js"] := by decide
  simp [processDeps, createModule, hj, hf, hd, jsObjSet, fileOf]

/-- Processing `b.js`'s dependency list creates another fresh record
for `a.js` — the path was seen before, but nothing checks that. -/
theorem processDeps_cycle_b (c : Nat) :
    processDeps cycleFS "example" ["./a.js"] [] c =
      .ok ([("./a.js", c)], [⟨c, "A", ["./b.js"], "example/a.js", []⟩], c + 1) := by
  have hj : pathJoin "example" "./a.js" = "example/a.js" := by decide
  have hf : cycleFS "example/a.js" = some (fileOf ["./b.js"] "A") := by decide
  have hd : extractDependencies [SrcNode.importDecl "./b.js"] = ["./b.js"] := by decide
  simp [processDeps, createModule, hj, hf, hd, jsObjSet, fileOf]

/-- On the cyclic file system every processed module appends one new
module to the list, so the `for (const module of moduleList)` loop
never reaches the end of the list: whatever the fuel, it is exhausted. -/
theorem cycle_queue_never_empties :
    ∀ (fuel : Nat) (done queue : List Module) (c : Nat),
      queue ≠ [] → (∀ m ∈ queue, cycleInv m) →
      buildLoop cycleFS fuel done queue c = .ok none := by
  intro fuel
  induction fuel with
  | zero =>
      intro done queue c hne _
      cases queue with
      | nil => exact absurd rfl hne
      | cons m rest => rfl
  | succ n ih =>
      intro done queue c hne hinv
      cases queue with
      | nil => exact absurd rfl hne
      | cons m rest =>
          have hm := hinv m (List.mem_cons_self m rest)
          have hrest : ∀ m' ∈ rest, cycleInv m' :=
            fun m' h => hinv m' (List.mem_cons_of_mem _ h)
          rcases hm with ⟨hp, hd⟩ | ⟨hp, hd⟩ | ⟨hp, hd⟩
          · have hdir : pathDirname m.path = "./example" := by rw [hp]; decide
            simp only [buildLoop, hdir, hd, processDeps_cycle_entry]
            apply ih
            · simp
            · intro m' hm'
              rcases List.mem_append.mp hm' with h | h
              · exact hrest m' h
              · simp only [List.mem_singleton] at h
                subst h
                exact Or.inr (Or.inl ⟨rfl, rfl⟩)
          · have hdir : pathDirname m.path = "example" := by rw [hp]; decide
            simp only [buildLoop, hdir, hd, processDeps_cycle_a]
            apply ih
            · simp
            · intro m' hm'
              rcases List.mem_append.mp hm' with h | h
              · exact hrest m' h
              · simp only [List.mem_singleton] at h
                subst h
                exact Or.inr (Or.inr ⟨rfl, rfl⟩)
          · have hdir : pathDirname m.path = "example" := by rw [hp]; decide
            simp only [buildLoop, hdir, hd, processDeps_cycle_b]
            apply ih
            · simp
            · intro m' hm'
              rcases List.mem_append.mp hm' with h | h
              · exact hrest m' h
              · simp only [List.mem_singleton] at h
                subst h
                exact Or.inr (Or.inl ⟨rfl, rfl⟩)

/-- Graph construction on the cyclic input runs out of any amount of
fuel: the JS loop never terminates. -/
theorem cycle_build_never_terminates (fuel : Nat) :
    createDependenceTree cycleFS "./example/entry.js" 0 fuel = .ok none := by
  have he : createModule cycleFS "./example/entry.js" 0 =
      .ok (⟨0, "E", ["./a.js"], "./example/entry.js", []⟩, 1) := by decide
  simp only [createDependenceTree, he]
  apply cycle_queue_never_empties
  · simp
  · intro m hm
    simp only [List.mem_singleton] at hm
    subst hm
    exact Or.inl ⟨rfl, rfl⟩

/-- In the generated loader (which has no exports cache), requiring
module 1 or module 2 of the cyclic table recurses 1 → 2 → 1 → … and
exhausts any fuel. -/
theorem cycle_rt_one_two (n : Nat) :
    (∀ st, requireRun cycleRtTbl n (some 1) st = .ok none) ∧
    (∀ st, requireRun cycleRtTbl n (some 2) st = .ok none) := by
  induction n with
  | zero => exact ⟨fun _ => rfl, fun _ => rfl⟩
  | succ n ih =>
      refine ⟨fun st => ?_, fun st => ?_⟩
      · have hf : findEntry cycleRtTbl (some 1) =
            some (1, [Stmt.sRequire "./b.js"], [("./b.js", 2)]) := by decide
        have hg : jsObjGet [("./b.js", 2)] "./b.js" = some 2 := by decide
        simp [requireRun, hf, runBody, hg, ih.2]
      · have hf : findEntry cycleRtTbl (some 2) =
            some (2, [Stmt.sRequire "./a.js"], [("./a.js", 1)]) := by decide
        have hg : jsObjGet [("./a.js", 1)] "./a.js" = some 1 := by decide
        simp [requireRun, hf, runBody, hg, ih.1]

/-- Calling `require(0)` on the cyclic table never completes, whatever the
fuel. -/
theorem cycle_rt_entry (fuel : Nat) (st : RtState) :
    requireRun cycleRtTbl fuel (some 0) st = .ok none := by
  cases fuel with
  | zero => rfl
  | succ n =>
      have hf : findEntry cycleRtTbl (some 0) =
          some (0, [Stmt.sRequire "./a.js"], [("./a.js", 1)]) := by decide
      have hg : jsObjGet [("./a.js", 1)] "./a.js" = some 1 := by decide
      simp [requireRun, hf, runBody, hg, (cycle_rt_one_two n).1]

/-- C2: the claim says the cyclic input builds a graph of exactly 3
records and the artifact's `require(0)` completes.  In fact graph
construction never terminates (no visited set), and on the three-record
table the spec describes, the cache-less generated `require(0)`
recurses 0 → 1 → 2 → 1 → … without bound. -/
theorem c2_cycle_never_terminates :
    (∀ fuel, createDependenceTree cycleFS "./example/entry.js" 0 fuel = .ok none) ∧
    (∀ fuel st, requireRun cycleRtTbl fuel (some 0) st = .ok none) ∧
    (∀ fuel st, runArtifact cycleRtTbl fuel st = .ok none) := by
  refine ⟨cycle_build_never_terminates, cycle_rt_entry, fun fuel st => ?_⟩
  simp [runArtifact, cycle_rt_entry]

/-- C3: the claim says requiring the same id twice invokes that
module's factory exactly once.  The generated `require` has no exports
cache: in `doubleRequireTbl` the entry requires `./a.js` (id 1) twice,
and the invocation log records factory 1 running twice. -/
theorem c3_no_memoization_factory_runs_twice :
    requireRun doubleRequireTbl 5 (some 0) ⟨[]⟩ =
      .ok (some (.obj [], ⟨[0, 1, 1]⟩)) ∧
    List.count 1 [0, 1, 1] = 2 := by
  exact ⟨by decide, by decide⟩

/-- C4 counterexample: the claim says an unresolvable joined path falls
back to probing suffixes, so `./x` resolves to `./x.js`.  In
`fallbackFS` the file `example/x` is absent while `example/x.js`
exists, yet the build aborts with a read error for `example/x`:
the joined path is used unconditionally, nothing is probed. -/
theorem c4_counterexample_no_fallback_probe :
    pathJoin "./example" "./x" = "example/x" ∧
    fallbackFS "example/x" = none ∧
    (∃ f, fallbackFS "example/x.js" = some f) ∧
    createDependenceTree fallbackFS "./example/entry.js" 0 20 =
      .error (.sourceReadError "example/x") := by
  exact ⟨by decide, by decide, ⟨fileOf [] "X", by decide⟩, by decide⟩

/-- C5 counterexample: the claim says a missing dependency fails the
build with `ModuleResolutionError`.  The only throw site is the file
read: the build on `missingFS` fails with a source read error for the
joined path, and with no `ModuleResolutionError` at all. -/
theorem c5_counterexample_read_error_not_resolution_error :
    buildResult missingFS "./example/entry.js" 0 20 =
      .error (.sourceReadError "example/missing.js") ∧
    ¬ ∃ s, buildResult missingFS "./example/entry.js" 0 20 =
      .error (.moduleResolutionError s) := by
  refine ⟨by decide, ?_⟩
  rintro ⟨s, hs⟩
  have h1 : buildResult missingFS "./example/entry.js" 0 20 =
      .error (.sourceReadError "example/missing.js") := by decide
  simpa using h1.symm.trans hs

/-- C6 counterexample: the claim says the entry module always receives
id 0, also when multiple builds run in the same process.  The
`identifier` counter is process-global (threaded through builds): a
second build started at the counter value 1 left by a first build gives
its entry module id 1. -/
theorem c6_counterexample_second_build_entry_id_one :
    createDependenceTree singleFS "./example/entry.js" 0 20 =
      .ok (some ([⟨0, "E", [], "./example/entry.js", []⟩], 1)) ∧
    createDependenceTree singleFS "./example/entry.js" 1 20 =
      .ok (some ([⟨1, "E", [], "./example/entry.js", []⟩], 2)) ∧
    Module.id ⟨1, "E", [], "./example/entry.js", []⟩ ≠ 0 := by
  exact ⟨by decide, by decide, by decide⟩

/-- A successful `createModule` call: the module takes the current
counter value as id and advances the counter by one; its fields come
from the file read at exactly the given path. -/
theorem createModule_ok (fs : FS) (p : String) (c : Nat) (m : Module)
    (c2 : Nat) (h : createModule fs p c = .ok (m, c2)) :
    m.id = c ∧ m.path = p ∧ c2 = c + 1 ∧
    ∃ f, fs p = some f ∧ m.code = f.compiled ∧
      m.dependencies = extractDependencies f.ast ∧ m.dependenceMapping = [] := by
  unfold createModule at h
  cases hf : fs p with
  | none => rw [hf] at h; exact absurd h (by simp)
  | some f =>
      rw [hf] at h
      simp only [Except.ok.injEq, Prod.mk.injEq] at h
      obtain ⟨h1, h2⟩ := h
      subst h1
      exact ⟨rfl, rfl, h2.symm, f, rfl, rfl, rfl, rfl⟩

/-- The modules created while processing one dependency list receive
the consecutive ids `c, c+1, …`, and the counter advances by their
number (which is the number of specifiers). -/
theorem processDeps_ids (fs : FS) (dirname : String) :
    ∀ (deps : List String) (mapping : List (String × Nat)) (c : Nat)
      (mp : List (String × Nat)) (mods : List Module) (c' : Nat),
      processDeps fs dirname deps mapping c = .ok (mp, mods, c') →
      mods.map (·.id) = List.range' c mods.length ∧
      c' = c + mods.length ∧ mods.length = deps.length := by
  intro deps
  induction deps with
  | nil =>
      intro mapping c mp mods c' h
      simp only [processDeps, Except.ok.injEq, Prod.mk.injEq] at h
      obtain ⟨-, h2, h3⟩ := h
      subst h2 h3
      simp [List.range']
  | cons d rest ih =>
      intro mapping c mp mods c' h
      simp only [processDeps] at h
      split at h
      next e heq => exact absurd h (by simp)
      next dm c2 heq =>
          split at h
          next e heq2 => exact absurd h (by simp)
          next mp2 mods2 c3 heq2 =>
              simp only [Except.ok.injEq, Prod.mk.injEq] at h
              obtain ⟨-, hm, hc3⟩ := h
              subst hm hc3
              obtain ⟨hid, -, hc2, -⟩ := createModule_ok _ _ _ _ _ heq
              subst hc2
              obtain ⟨ih1, ih2, ih3⟩ := ih _ _ _ _ _ heq2
              refine ⟨?_, ?_, ?_⟩
              · rw [List.map_cons, hid, ih1]
                rfl
              · simp only [List.length_cons]
                omega
              · simp only [List.length_cons, ih3]

/-- Along the `for`-loop, the concatenation `done ++ queue` lists every
created module in creation order with consecutive ids from `c0`, and
the counter equals `c0` plus their number; hence a completed loop
returns modules with ids `c0, c0+1, …` and the final counter value. -/
theorem buildLoop_ids (fs : FS) :
    ∀ (fuel : Nat) (done queue : List Module) (c0 counter : Nat)
      (mods : List Module) (c' : Nat),
      (done ++ queue).map (·.id) =
        List.range' c0 (done.length + queue.length) →
      counter = c0 + (done.length + queue.length) →
      buildLoop fs fuel done queue counter = .ok (some (mods, c')) →
      mods.map (·.id) = List.range' c0 mods.length ∧ c' = c0 + mods.length := by
  intro fuel
  induction fuel with
  | zero =>
      intro done queue c0 counter mods c' hmap hcnt h
      cases queue with
      | nil =>
          simp only [buildLoop, Except.ok.injEq, Option.some.injEq,
            Prod.mk.injEq] at h
          obtain ⟨h1, h2⟩ := h
          subst h1 h2
          constructor
          · simpa using hmap
          · simpa using hcnt
      | cons m rest => exact absurd h (by simp [buildLoop])
  | succ n ih =>
      intro done queue c0 counter mods c' hmap hcnt h
      cases queue with
      | nil =>
          simp only [buildLoop, Except.ok.injEq, Option.some.injEq,
            Prod.mk.injEq] at h
          obtain ⟨h1, h2⟩ := h
          subst h1 h2
          constructor
          · simpa using hmap
          · simpa using hcnt
      | cons m rest =>
          simp only [buildLoop] at h
          split at h
          next e heq => exact absurd h (by simp)
          next mapping newMods counter2 heq =>
              obtain ⟨hids, hcnt2, -⟩ := processDeps_ids fs _ _ _ _ _ _ _ heq
              refine ih (done ++ [{ m with dependenceMapping := mapping }])
                (rest ++ newMods) c0 counter2 mods c' ?_ ?_ h
              · have key : ((done ++ [{ m with dependenceMapping := mapping }]) ++
                      (rest ++ newMods)).map (fun x : Module => x.id) =
                    ((done ++ m :: rest).map (fun x : Module => x.id)) ++
                      newMods.map (fun x : Module => x.id) := by
                  simp
                rw [key, hmap, hids, hcnt, List.range'_append_1]
                congr 1
                simp only [List.length_append, List.length_cons, List.length_nil]
                omega
              · simp only [List.length_append, List.length_cons,
                  List.length_nil] at hcnt2 hcnt ⊢
                omega

/-- Ids in a completed dependence tree: consecutive from the initial
counter value, in list order; the entry (head) module's id is the
initial counter value, and the final counter advanced by the number of
records. -/
theorem createDependenceTree_ids (fs : FS) (entry : String) (c0 fuel : Nat)
    (mods : List Module) (c' : Nat)
    (h : createDependenceTree fs entry c0 fuel = .ok (some (mods, c'))) :
    mods.map (·.id) = List.range' c0 mods.length ∧ c' = c0 + mods.length := by
  unfold createDependenceTree at h
  cases hc : createModule fs entry c0 with
  | error e => rw [hc] at h; exact absurd h (by simp)
  | ok pr =>
      obtain ⟨em, c1⟩ := pr
      rw [hc] at h
      obtain ⟨hid, -, hc1, -⟩ := createModule_ok _ _ _ _ _ hc
      subst hc1
      exact buildLoop_ids fs fuel [] [em] c0 (c0 + 1) mods c'
        (by simp [hid, List.range']) (by simp) h

/-- C4 (amended): resolution is the unconditional join of the importing
directory with the specifier — no existence check and no fallback
probing.  If no file exists at the joined path the build aborts with a
read error for exactly that path (whatever other candidates exist on
disk); if a file exists there, the module created for the specifier
uses exactly the joined path. -/
theorem c4_amended_resolution_is_join (fs : FS) (dirname dep : String)
    (rest : List String) (mapping : List (String × Nat)) (c : Nat) :
    (fs (pathJoin dirname dep) = none →
      processDeps fs dirname (dep :: rest) mapping c =
        .error (.sourceReadError (pathJoin dirname dep))) ∧
    (∀ mp mods c',
      processDeps fs dirname (dep :: rest) mapping c = .ok (mp, mods, c') →
      ∃ dm tail, mods = dm :: tail ∧ dm.path = pathJoin dirname dep ∧
        dm.id = c) := by
  constructor
  · intro hnone
    simp [processDeps, createModule, hnone]
  · intro mp mods c' h
    simp only [processDeps] at h
    split at h
    next e heq => exact absurd h (by simp)
    next dm c2 heq =>
        split at h
        next e heq2 => exact absurd h (by simp)
        next mp2 mods2 c3 heq2 =>
            simp only [Except.ok.injEq, Prod.mk.injEq] at h
            obtain ⟨-, hm, -⟩ := h
            obtain ⟨hid, hpath, -, -⟩ := createModule_ok _ _ _ _ _ heq
            exact ⟨dm, mods2, hm.symm, hpath, hid⟩

/-- Witness for the amended C4: with `example/x.js` on disk but
`example/x` absent, processing the specifier `./x` fails with a read
error at the joined path. -/
theorem c4_amended_witness :
    processDeps fallbackFS "./example" ["./x"] [] 1 =
      .error (.sourceReadError (pathJoin "./example" "./x")) :=
  (c4_amended_resolution_is_join fallbackFS "./example" "./x" [] [] 1).1
    (by decide)

/-- A failing `createModule` call failed reading exactly its path. -/
theorem createModule_error (fs : FS) (p : String) (c : Nat) (e : BuildError)
    (h : createModule fs p c = .error e) :
    e = .sourceReadError p ∧ fs p = none := by
  unfold createModule at h
  cases hf : fs p with
  | none =>
      rw [hf] at h
      simp only [Except.error.injEq] at h
      exact ⟨h.symm, rfl⟩
  | some f => rw [hf] at h; exact absurd h (by simp)

/-- Every failure of dependency processing is a source read error for a
path absent from disk. -/
theorem processDeps_error_is_read (fs : FS) (dirname : String) :
    ∀ (deps : List String) (mapping : List (String × Nat)) (c : Nat)
      (e : BuildError),
      processDeps fs dirname deps mapping c = .error e →
      ∃ p, e = .sourceReadError p ∧ fs p = none := by
  intro deps
  induction deps with
  | nil => intro mapping c e h; exact absurd h (by simp [processDeps])
  | cons d rest ih =>
      intro mapping c e h
      simp only [processDeps] at h
      split at h
      next e2 heq =>
          simp only [Except.error.injEq] at h
          subst h
          obtain ⟨he, hf⟩ := createModule_error _ _ _ _ heq
          exact ⟨pathJoin dirname d, he, hf⟩
      next dm c2 heq =>
          split at h
          next e2 heq2 =>
              simp only [Except.error.injEq] at h
              subst h
              exact ih _ _ _ heq2
          next => exact absurd h (by simp)

/-- Every failure of the build loop is a source read error for a path
absent from disk. -/
theorem buildLoop_error_is_read (fs : FS) :
    ∀ (fuel : Nat) (done queue : List Module) (counter : Nat)
      (e : BuildError),
      buildLoop fs fuel done queue counter = .error e →
      ∃ p, e = .sourceReadError p ∧ fs p = none := by
  intro fuel
  induction fuel with
  | zero =>
      intro done queue counter e h
      cases queue with
      | nil => exact absurd h (by simp [buildLoop])
      | cons m rest => exact absurd h (by simp [buildLoop])
  | succ n ih =>
      intro done queue counter e h
      cases queue with
      | nil => exact absurd h (by simp [buildLoop])
      | cons m rest =>
          simp only [buildLoop] at h
          split at h
          next e2 heq =>
              simp only [Except.error.injEq] at h
              subst h
              exact processDeps_error_is_read fs _ _ _ _ _ heq
          next mapping newMods counter2 heq => exact ih _ _ _ _ h

/-- Every failure of graph construction is a source read error for a
path absent from disk. -/
theorem createDependenceTree_error_is_read (fs : FS) (entry : String)
    (c fuel : Nat) (e : BuildError)
    (h : createDependenceTree fs entry c fuel = .error e) :
    ∃ p, e = .sourceReadError p ∧ fs p = none := by
  unfold createDependenceTree at h
  split at h
  next e2 heq =>
      simp only [Except.error.injEq] at h
      subst h
      obtain ⟨he, hf⟩ := createModule_error _ _ _ _ heq
      exact ⟨entry, he, hf⟩
  next em c1 heq => exact buildLoop_error_is_read fs fuel [] [em] c1 e h

/-- Successful dependency processing found a file at every specifier's
joined path. -/
theorem processDeps_ok_all_resolve (fs : FS) (dirname : String) :
    ∀ (deps : List String) (mapping : List (String × Nat)) (c : Nat)
      (mp : List (String × Nat)) (mods : List Module) (c' : Nat),
      processDeps fs dirname deps mapping c = .ok (mp, mods, c') →
      ∀ d ∈ deps, ∃ f, fs (pathJoin dirname d) = some f := by
  intro deps
  induction deps with
  | nil => intro mapping c mp mods c' h d hd; exact absurd hd (by simp)
  | cons d0 rest ih =>
      intro mapping c mp mods c' h d hd
      simp only [processDeps] at h
      split at h
      next e heq => exact absurd h (by simp)
      next dm c2 heq =>
          split at h
          next e heq2 => exact absurd h (by simp)
          next mp2 mods2 c3 heq2 =>
              rcases List.mem_cons.mp hd with hd | hd
              · subst hd
                obtain ⟨-, -, -, f, hf, -⟩ := createModule_ok _ _ _ _ _ heq
                exact ⟨f, hf⟩
              · exact ih _ _ _ _ _ heq2 d hd

/-- When the loop completes, every module of the final list (all of
`done` plus everything processed from the queue) had each of its
specifiers resolve to an existing file at the joined path. -/
theorem buildLoop_ok_all_resolve (fs : FS) :
    ∀ (fuel : Nat) (done queue : List Module) (counter : Nat)
      (mods : List Module) (c' : Nat),
      (∀ m ∈ done, ∀ d ∈ m.dependencies,
        ∃ f, fs (pathJoin (pathDirname m.path) d) = some f) →
      buildLoop fs fuel done queue counter = .ok (some (mods, c')) →
      ∀ m ∈ mods, ∀ d ∈ m.dependencies,
        ∃ f, fs (pathJoin (pathDirname m.path) d) = some f := by
  intro fuel
  induction fuel with
  | zero =>
      intro done queue counter mods c' hdone h
      cases queue with
      | nil =>
          simp only [buildLoop, Except.ok.injEq, Option.some.injEq,
            Prod.mk.injEq] at h
          obtain ⟨h1, -⟩ := h
          subst h1
          exact hdone
      | cons m rest => exact absurd h (by simp [buildLoop])
  | succ n ih =>
      intro done queue counter mods c' hdone h
      cases queue with
      | nil =>
          simp only [buildLoop, Except.ok.injEq, Option.some.injEq,
            Prod.mk.injEq] at h
          obtain ⟨h1, -⟩ := h
          subst h1
          exact hdone
      | cons m rest =>
          simp only [buildLoop] at h
          split at h
          next e heq => exact absurd h (by simp)
          next mapping newMods counter2 heq =>
              refine ih (done ++ [{ m with dependenceMapping := mapping }])
                (rest ++ newMods) counter2 mods c' ?_ h
              intro mm hmm
              rcases List.mem_append.mp hmm with hmm | hmm
              · exact hdone mm hmm
              · simp only [List.mem_singleton] at hmm
                subst hmm
                show ∀ d ∈ m.dependencies,
                  ∃ f, fs (pathJoin (pathDirname m.path) d) = some f
                exact processDeps_ok_all_resolve fs _ _ _ _ _ _ _ heq

/-- A completed graph only contains records whose specifiers all
resolved. -/
theorem createDependenceTree_ok_all_resolve (fs : FS) (entry : String)
    (c fuel : Nat) (tree : List Module) (c' : Nat)
    (h : createDependenceTree fs entry c fuel = .ok (some (tree, c'))) :
    ∀ m ∈ tree, ∀ d ∈ m.dependencies,
      ∃ f, fs (pathJoin (pathDirname m.path) d) = some f := by
  unfold createDependenceTree at h
  split at h
  next e heq => exact absurd h (by simp)
  next em c1 heq =>
      exact buildLoop_ok_all_resolve fs fuel [] [em] c1 tree c' (by simp) h

/-- Processing a dependency list whose earlier specifiers all resolve
but whose specifier `dep` joins to a missing path fails with the read
error naming exactly that joined path, whatever comes after. -/
theorem processDeps_missing (fs : FS) (dirname : String) :
    ∀ (pre : List String) (dep : String) (post : List String)
      (mapping : List (String × Nat)) (c : Nat),
      (∀ d ∈ pre, ∃ f, fs (pathJoin dirname d) = some f) →
      fs (pathJoin dirname dep) = none →
      processDeps fs dirname (pre ++ dep :: post) mapping c =
        .error (.sourceReadError (pathJoin dirname dep)) := by
  intro pre
  induction pre with
  | nil =>
      intro dep post mapping c hpre hmiss
      simp [processDeps, createModule, hmiss]
  | cons d pre' ih =>
      intro dep post mapping c hpre hmiss
      obtain ⟨f, hf⟩ := hpre d (List.mem_cons_self d pre')
      have hrec := ih dep post (jsObjSet mapping d c) (c + 1)
        (fun d' hd' => hpre d' (List.mem_cons_of_mem _ hd')) hmiss
      simp only [List.cons_append, processDeps, createModule, hf,
        List.append_eq, hrec]

/-- C5 (amended): (a) every build failure is a source read error — the
`readFileSync` throw, the code has no `ModuleResolutionError` — naming
a path absent from disk; (b) an artifact text is only produced when
every specifier of every record of the completed graph resolved to an
existing file, so a build that reaches a module with a missing import
produces no artifact; (c) at any state of the traversal, entry or
transitive, a work-queue head module whose first unresolvable specifier
(at any position of its list) joins to a missing path aborts the build
with the read error naming exactly that joined path. -/
theorem c5_amended_read_error_and_no_artifact :
    (∀ (fs : FS) (entry : String) (c fuel : Nat) (e : BuildError),
      buildResult fs entry c fuel = .error e →
      ∃ p, e = .sourceReadError p ∧ fs p = none) ∧
    (∀ (fs : FS) (entry : String) (c fuel : Nat) (art : String),
      buildResult fs entry c fuel = .ok (some art) →
      ∃ tree c', createDependenceTree fs entry c fuel = .ok (some (tree, c')) ∧
        art = bundle tree ∧
        ∀ m ∈ tree, ∀ d ∈ m.dependencies,
          ∃ f, fs (pathJoin (pathDirname m.path) d) = some f) ∧
    (∀ (fs : FS) (fuel : Nat) (done : List Module) (m : Module)
      (rest : List Module) (counter : Nat) (pre : List String)
      (dep : String) (post : List String),
      m.dependencies = pre ++ dep :: post →
      (∀ d ∈ pre, ∃ f, fs (pathJoin (pathDirname m.path) d) = some f) →
      fs (pathJoin (pathDirname m.path) dep) = none →
      0 < fuel →
      buildLoop fs fuel done (m :: rest) counter =
        .error (.sourceReadError (pathJoin (pathDirname m.path) dep))) := by
  refine ⟨?_, ?_, ?_⟩
  · intro fs entry c fuel e h
    unfold buildResult at h
    split at h
    next e2 heq =>
        simp only [Except.error.injEq] at h
        subst h
        exact createDependenceTree_error_is_read fs entry c fuel e2 heq
    next heq => exact absurd h (by simp)
    next tree c2 heq => exact absurd h (by simp)
  · intro fs entry c fuel art h
    unfold buildResult at h
    split at h
    next e heq => exact absurd h (by simp)
    next heq => exact absurd h (by simp)
    next tree c2 heq =>
        simp only [Except.ok.injEq, Option.some.injEq] at h
        exact ⟨tree, c2, heq, h.symm,
          createDependenceTree_ok_all_resolve fs entry c fuel tree c2 heq⟩
  · intro fs fuel done m rest counter pre dep post hdeps hpre hmiss hfuel
    obtain ⟨n, rfl⟩ : ∃ n, fuel = n + 1 := ⟨fuel - 1, by omega⟩
    have hproc := processDeps_missing fs (pathDirname m.path) pre dep post
      [] counter hpre hmiss
    simp only [buildLoop, hdeps, hproc]

/-- Witness for the amended C5 on a transitive, second-position missing
import: the build on `transFS` (entry → a.js, whose second specifier
`./missing.js` has no file) fails with the read error for
`example/missing.js`, also when the loop is entered at the mid-build
state where `a.js` heads the queue. -/
theorem c5_amended_witness :
    (∃ p, BuildError.sourceReadError "example/missing.js" =
        .sourceReadError p ∧ transFS p = none) ∧
    buildLoop transFS 19
      [⟨0, "E", ["./a.js"], "./example/entry.js", [("./a.js", 1)]⟩]
      [⟨1, "A", ["./b.js", "./missing.js"], "example/a.js", []⟩] 2 =
      .error (.sourceReadError
        (pathJoin (pathDirname "example/a.js") "./missing.js")) := by
  constructor
  · exact c5_amended_read_error_and_no_artifact.1 transFS
      "./example/entry.js" 0 20 (.sourceReadError "example/missing.js")
      (by decide)
  · exact c5_amended_read_error_and_no_artifact.2.2 transFS 19
      [⟨0, "E", ["./a.js"], "./example/entry.js", [("./a.js", 1)]⟩]
      ⟨1, "A", ["./b.js", "./missing.js"], "example/a.js", []⟩ [] 2
      ["./b.js"] "./missing.js" [] rfl
      (by intro d hd
          simp only [List.mem_singleton] at hd
          subst hd
          exact ⟨fileOf [] "B", by decide⟩)
      (by decide) (by decide)

/-- C6 (amended): ids are assigned once at first discovery,
monotonically increasing from the process-global counter's current
value; the entry module receives the initial counter value as id — 0
exactly when the build is the first in the process — and the counter is
left advanced by the number of records. -/
theorem c6_amended_ids_consecutive_from_counter (fs : FS) (entry : String)
    (c0 fuel : Nat) (mods : List Module) (c' : Nat)
    (h : createDependenceTree fs entry c0 fuel = .ok (some (mods, c'))) :
    mods.map (·.id) = List.range' c0 mods.length ∧
    c' = c0 + mods.length ∧
    (∀ m0 rest, mods = m0 :: rest → m0.id = c0) := by
  obtain ⟨h1, h2⟩ := createDependenceTree_ids fs entry c0 fuel mods c' h
  refine ⟨h1, h2, ?_⟩
  intro m0 rest hm
  subst hm
  simp only [List.map_cons, List.length_cons] at h1
  rw [show List.range' c0 (rest.length + 1) =
      c0 :: List.range' (c0 + 1) rest.length from rfl] at h1
  injection h1

/-- Witness for the amended C6 at a concrete single-module build
started from counter 0: the one record's id list is `[0]`. -/
theorem c6_amended_witness :
    ([⟨0, "E", [], "./example/entry.js", []⟩] : List Module).map (·.id) =
      List.range' 0 1 :=
  (c6_amended_ids_consecutive_from_counter singleFS "./example/entry.js" 0 20
    [⟨0, "E", [], "./example/entry.js", []⟩] 1 (by decide)).1

/-- The fold `modules += ...` over the tree appends one serialized entry per
record, in list order. -/
theorem bundleModulesText_eq_join (tree : List Module) :
    bundleModulesText tree = String.join (tree.map moduleEntryString) := by
  simp [bundleModulesText, String.join, List.foldl_map]

/-- C7 (amended): the artifact text is the loader applied to the
serialized entries in list order (which for a built tree is id order,
ids being consecutive from the initial counter); execution begins with
`require(0);` as a bare statement, so the artifact expression evaluates
to `undefined` rather than to the entry's exports. -/
theorem c7_amended_shape (fs : FS) (entry : String) (c0 fuel : Nat)
    (tree : List Module) (c' : Nat)
    (h : createDependenceTree fs entry c0 fuel = .ok (some (tree, c'))) :
    bundle tree =
      bundlePrefix ++ String.join (tree.map moduleEntryString) ++ bundleSuffix ∧
    tree.map (·.id) = List.range' c0 tree.length ∧
    (∀ modules f st v st',
      requireRun modules f (some 0) st = .ok (some (v, st')) →
      runArtifact modules f st = .ok (some (.undef, st'))) := by
  refine ⟨?_, (createDependenceTree_ids fs entry c0 fuel tree c' h).1,
    fun modules f st v st' hr => ?_⟩
  · rw [bundle, bundleModulesText_eq_join]
  · simp [runArtifact, hr]

/-- Witness for the amended C7 at the concrete single-module build. -/
theorem c7_amended_witness :
    bundle [⟨0, "E", [], "./example/entry.js", []⟩] =
      bundlePrefix ++
        String.join (([⟨0, "E", [], "./example/entry.js", []⟩] :
          List Module).map moduleEntryString) ++ bundleSuffix :=
  (c7_amended_shape singleFS "./example/entry.js" 0 20
    [⟨0, "E", [], "./example/entry.js", []⟩] 1 (by decide)).1

/-- C7 counterexample: the claim says execution begins with
`require(entryId)` whose return value is the artifact's result.  The
loader runs `require(0);` as a bare statement: on `singleTbl` the
require call returns the exports object `{x: 1}`, but the artifact
expression evaluates to `undefined`. -/
theorem c7_counterexample_result_discarded :
    requireRun singleTbl 1 (some 0) ⟨[]⟩ =
      .ok (some (.obj [("x", 1)], ⟨[0]⟩)) ∧
    runArtifact singleTbl 1 ⟨[]⟩ = .ok (some (.undef, ⟨[0]⟩)) ∧
    Val.obj [("x", 1)] ≠ Val.undef := by
  exact ⟨by decide, by decide, by decide⟩

/-- Assigning a key that is not yet present appends the entry at the
end of the object. -/
theorem jsObjSet_fresh (m : List (String × Nat)) (k : String) (v : Nat)
    (h : ∀ p ∈ m, p.1 ≠ k) : jsObjSet m k v = m ++ [(k, v)] := by
  unfold jsObjSet
  have hany : (m.any (fun p => p.1 = k)) = false := by
    rw [List.any_eq_false]
    intro p hp
    simpa using h p hp
  rw [hany]
  simp

/-- A key present after a JS object assignment was either already
present or is the assigned key. -/
theorem jsObjSet_mem (m : List (String × Nat)) (k0 : String) (v0 : Nat)
    (k : String) (v : Nat) (h : (k, v) ∈ jsObjSet m k0 v0) :
    (∃ v', (k, v') ∈ m) ∨ k = k0 := by
  unfold jsObjSet at h
  split at h
  · obtain ⟨p, hp, hpe⟩ := List.mem_map.mp h
    by_cases hc : p.1 = k0
    · rw [if_pos hc] at hpe
      right
      exact (Prod.mk.injEq _ _ _ _ ▸ hpe).1.symm ▸ rfl
    · rw [if_neg hc] at hpe
      exact Or.inl ⟨v, hpe ▸ hp⟩
  · rcases List.mem_append.mp h with h | h
    · exact Or.inl ⟨v, h⟩
    · simp only [List.mem_singleton, Prod.mk.injEq] at h
      exact Or.inr h.1

/-- Processing a duplicate-free dependency list with an accumulator
whose keys are disjoint from it appends `specifier ↦ id` pairs in
specifier order with consecutive ids, and creates the dependency
modules in specifier order at the joined paths. -/
theorem processDeps_mapping_order (fs : FS) (dirname : String) :
    ∀ (deps : List String) (acc : List (String × Nat)) (c : Nat)
      (mp : List (String × Nat)) (mods : List Module) (c' : Nat),
      processDeps fs dirname deps acc c = .ok (mp, mods, c') →
      (∀ d ∈ deps, ∀ p ∈ acc, p.1 ≠ d) →
      deps.Nodup →
      mp = acc ++ deps.zip (List.range' c deps.length) ∧
      mods.map (·.path) = deps.map (fun d => pathJoin dirname d) := by
  intro deps
  induction deps with
  | nil =>
      intro acc c mp mods c' h hfresh hnd
      simp only [processDeps, Except.ok.injEq, Prod.mk.injEq] at h
      obtain ⟨h1, h2, -⟩ := h
      subst h1 h2
      simp
  | cons d rest ih =>
      intro acc c mp mods c' h hfresh hnd
      simp only [processDeps] at h
      split at h
      next e heq => exact absurd h (by simp)
      next dm c2 heq =>
          split at h
          next e heq2 => exact absurd h (by simp)
          next mp2 mods2 c3 heq2 =>
              simp only [Except.ok.injEq, Prod.mk.injEq] at h
              obtain ⟨hmp, hm, -⟩ := h
              subst hmp hm
              obtain ⟨hid, hpath, hc2, -⟩ := createModule_ok _ _ _ _ _ heq
              subst hc2
              rw [hid] at heq2
              have hacc' : ∀ d' ∈ rest, ∀ p ∈ acc ++ [(d, c)], p.1 ≠ d' := by
                intro d' hd' p hp
                rcases List.mem_append.mp hp with hp | hp
                · exact hfresh d' (List.mem_cons_of_mem _ hd') p hp
                · simp only [List.mem_singleton] at hp
                  subst hp
                  intro hcontra
                  simp only at hcontra
                  subst hcontra
                  exact (List.nodup_cons.mp hnd).1 hd'
              have hset : jsObjSet acc d c = acc ++ [(d, c)] :=
                jsObjSet_fresh acc d c
                  (fun p hp => hfresh d (List.mem_cons_self d rest) p hp)
              rw [hset] at heq2
              obtain ⟨ih1, ih2⟩ :=
                ih _ _ _ _ _ heq2 hacc' (List.nodup_cons.mp hnd).2
              constructor
              · rw [ih1, List.append_assoc]
                congr 1
              · simp only [List.map_cons, ih2, hpath]

/-- C8: the loop processes the module list front to back as a FIFO work
queue; for one module, specifiers are resolved in declared order
relative to the module's directory, `dependenceMapping` entries are
recorded in specifier order with the consecutively assigned fresh ids,
and in any completed build the module list carries consecutive ids in
discovery order — id assignment is a deterministic function of the
file set. -/
theorem c8_fifo_and_specifier_order (fs : FS) (dirname : String)
    (deps : List String) (c : Nat) (mp : List (String × Nat))
    (mods : List Module) (c' : Nat)
    (hnd : deps.Nodup)
    (h : processDeps fs dirname deps [] c = .ok (mp, mods, c')) :
    mp = deps.zip (List.range' c deps.length) ∧
    mods.map (·.path) = deps.map (fun d => pathJoin dirname d) ∧
    mods.map (·.id) = List.range' c deps.length ∧
    (∀ fs' entry c0 fuel tree cf,
      createDependenceTree fs' entry c0 fuel = .ok (some (tree, cf)) →
      tree.map (·.id) = List.range' c0 tree.length) := by
  obtain ⟨h1, h2⟩ :=
    processDeps_mapping_order fs dirname deps [] c mp mods c' h
      (by simp) hnd
  obtain ⟨h3, -, hlen⟩ := processDeps_ids fs dirname deps [] c mp mods c' h
  refine ⟨by simpa using h1, h2, by rw [h3, hlen], ?_⟩
  intro fs' entry c0 fuel tree cf hh
  exact (createDependenceTree_ids fs' entry c0 fuel tree cf hh).1

/-- The traversal's fold, started from any accumulator, appends
exactly the import-declaration sources. -/
theorem extractDependencies_foldl (ast : List SrcNode) :
    ∀ acc : List String,
      ast.foldl (fun acc n =>
        match n with
        | .importDecl s => acc ++ [s]
        | _ => acc) acc = acc ++ ast.filterMap importSource := by
  induction ast with
  | nil => intro acc; simp
  | cons n rest ih =>
      intro acc
      cases n with
      | importDecl s => simp [ih, importSource, List.filterMap_cons]
      | requireCall s => simp [ih, importSource, List.filterMap_cons]
      | other => simp [ih, importSource, List.filterMap_cons]

/-- Dependency collection keeps exactly the `ImportDeclaration`
sources, in source order. -/
theorem extractDependencies_eq_filterMap (ast : List SrcNode) :
    extractDependencies ast = ast.filterMap importSource := by
  simpa using extractDependencies_foldl ast []

/-- Every key of the finished `dependenceMapping` was already a key of
the accumulator or is one of the processed specifiers. -/
theorem processDeps_keys (fs : FS) (dirname : String) :
    ∀ (deps : List String) (acc : List (String × Nat)) (c : Nat)
      (mp : List (String × Nat)) (mods : List Module) (c' : Nat),
      processDeps fs dirname deps acc c = .ok (mp, mods, c') →
      ∀ k v, (k, v) ∈ mp → (∃ v', (k, v') ∈ acc) ∨ k ∈ deps := by
  intro deps
  induction deps with
  | nil =>
      intro acc c mp mods c' h k v hkv
      simp only [processDeps, Except.ok.injEq, Prod.mk.injEq] at h
      obtain ⟨h1, -, -⟩ := h
      subst h1
      exact Or.inl ⟨v, hkv⟩
  | cons d rest ih =>
      intro acc c mp mods c' h k v hkv
      simp only [processDeps] at h
      split at h
      next e heq => exact absurd h (by simp)
      next dm c2 heq =>
          split at h
          next e heq2 => exact absurd h (by simp)
          next mp2 mods2 c3 heq2 =>
              simp only [Except.ok.injEq, Prod.mk.injEq] at h
              obtain ⟨hmp, -, -⟩ := h
              subst hmp
              rcases ih _ _ _ _ _ heq2 k v hkv with ⟨v', hv'⟩ | hk
              · rcases jsObjSet_mem acc d dm.id k v' hv' with hin | hkd
                · exact Or.inl hin
                · exact Or.inr (hkd ▸ List.mem_cons_self d rest)
              · exact Or.inr (List.mem_cons_of_mem _ hk)

/-- C9: a module's dependency list is exactly the sources of the ES
`import` declarations of its parsed file, in source order; a specifier
occurs among the dependencies iff an import declaration for it occurs
in the file (so `require('...')` call expressions are never collected),
and every key of any `dependenceMapping` built from scratch comes from
such a dependency list. -/
theorem c9_dependencies_are_import_sources (fs : FS) (p : String) (c : Nat)
    (m : Module) (c2 : Nat) (h : createModule fs p c = .ok (m, c2)) :
    (∃ f, fs p = some f ∧
      m.dependencies = f.ast.filterMap importSource ∧
      (∀ s, s ∈ m.dependencies ↔ SrcNode.importDecl s ∈ f.ast)) ∧
    (∀ dirname deps c1 mp mods c3,
      processDeps fs dirname deps [] c1 = .ok (mp, mods, c3) →
      ∀ k v, (k, v) ∈ mp → k ∈ deps) := by
  constructor
  · obtain ⟨-, -, -, f, hf, -, hdeps, -⟩ := createModule_ok _ _ _ _ _ h
    refine ⟨f, hf, ?_, ?_⟩
    · rw [hdeps, extractDependencies_eq_filterMap]
    · intro s
      rw [hdeps, extractDependencies_eq_filterMap, List.mem_filterMap]
      constructor
      · rintro ⟨n, hn, hns⟩
        cases n with
        | importDecl a =>
            simp only [importSource, Option.some.injEq] at hns
            exact hns ▸ hn
        | requireCall a => simp [importSource] at hns
        | other => simp [importSource] at hns
      · intro hs
        exact ⟨.importDecl s, hs, rfl⟩
  · intro dirname deps c1 mp mods c3 hp k v hkv
    rcases processDeps_keys fs dirname deps [] c1 mp mods c3 hp k v hkv with
      ⟨v', hv'⟩ | hk
    · exact absurd hv' (by simp)
    · exact hk

/-- Witness for C9 at module `b.js` of the diamond file system: its
dependency list is exactly its one import declaration's source. -/
theorem c9_witness :
    (∃ f, diamondFS "example/b.js" = some f ∧
      Module.dependencies ⟨7, "B", ["./d.js"], "example/b.js", []⟩ =
        f.ast.filterMap importSource ∧
      (∀ s, s ∈ Module.dependencies ⟨7, "B", ["./d.js"], "example/b.js", []⟩ ↔
        SrcNode.importDecl s ∈ f.ast)) ∧
    (∀ dirname deps c1 mp mods c3,
      processDeps diamondFS dirname deps [] c1 = .ok (mp, mods, c3) →
      ∀ k v, (k, v) ∈ mp → k ∈ deps) :=
  c9_dependencies_are_import_sources diamondFS "example/b.js" 7
    ⟨7, "B", ["./d.js"], "example/b.js", []⟩ 8 (by decide)

/-- C10: inside the generated loader, a factory body calling its
module-local require with a specifier that is not a key of the module's
`dependenceMapping` looks up `undefined`, so the outer `require`
destructures `modules[undefined]` and the loader throws a type error at
that point. -/
theorem c10_unknown_specifier_type_error (modules : RtTable) (fuel : Nat)
    (dependenceMapping : List (String × Nat)) (name : String)
    (rest : List Stmt) (exports : List (String × Int)) (st : RtState)
    (hname : ∀ pr ∈ dependenceMapping, pr.1 ≠ name)
    (hfuel : 0 < fuel) :
    jsObjGet dependenceMapping name = none ∧
    requireRun modules fuel none st = .error .typeError ∧
    runBody (requireRun modules fuel) dependenceMapping
      (.sRequire name :: rest) exports st = .error .typeError := by
  have hget : jsObjGet dependenceMapping name = none := by
    unfold jsObjGet
    rw [List.find?_eq_none.mpr]
    · rfl
    · intro pr hpr
      simpa using hname pr hpr
  obtain ⟨n, rfl⟩ : ∃ n, fuel = n + 1 := ⟨fuel - 1, by omega⟩
  refine ⟨hget, ?_, ?_⟩
  · simp [requireRun, findEntry]
  · simp [runBody, hget, requireRun, findEntry]

/-- Witness for C10: requiring the unknown specifier `./nope` from a
module whose mapping only knows `./a.js` throws the type error. -/
theorem c10_witness :
    jsObjGet [("./a.js", 1)] "./nope" = none ∧
    requireRun singleTbl 3 none ⟨[]⟩ = .error .typeError ∧
    runBody (requireRun singleTbl 3) [("./a.js", 1)]
      [.sRequire "./nope"] [] ⟨[]⟩ = .error .typeError :=
  c10_unknown_specifier_type_error singleTbl 3 [("./a.js", 1)] "./nope"
    [] [] ⟨[]⟩ (by decide) (by decide)

/-- Witness for C8 on the diamond entry's dependency list: the mapping
is the specifiers zipped with the consecutive fresh ids. -/
theorem c8_witness :
    ([("./b.js", 1), ("./c.js", 2)] : List (String × Nat)) =
      (["./b.js", "./c.js"]).zip (List.range' 1 2) :=
  (c8_fifo_and_specifier_order diamondFS "./example" ["./b.js", "./c.js"] 1
    [("./b.js", 1), ("./c.js", 2)]
    [⟨1, "B", ["./d.js"], "example/b.js", []⟩,
     ⟨2, "C", ["./d.js"], "example/c.js", []⟩] 3
    (by decide) (by decide)).1

end MiniBuilder
